import Mathlib

/-!
Verification of the poker engine (hand evaluator, pot engine, betting round,
win-probability calculator, bot decision engine) against its specification.

The Python sources are shallowly embedded: cards are (suit, rank) pairs over
the closed enumerations validated by the `Card` constructor, machine integers
are `Int`/`Nat`, Python tuple comparison is the explicit `tupleGt`, and the
fallible operations return `Except`/`Option`.
-/

/-- A card from `poker_game.Card`: the constructor validates
`suit ∈ SUITS` (4 values) and `rank ∈ RANKS` (13 values, index 0 = "2",
8 = "10", 9 = "J", 10 = "Q", 11 = "K", 12 = "A"), so a card is exactly a
pair of a suit index and a rank index. -/
structure Card where
  suit : Fin 4
  rank : Fin 13
  deriving DecidableEq, Repr

/-- The ten hand categories of `HandEvaluator.HAND_RANKS`, as a closed
enumeration (the source uses the category display strings as keys). -/
inductive HandType where
  | highCard
  | onePair
  | twoPair
  | threeOfAKind
  | straight
  | flush
  | fullHouse
  | fourOfAKind
  | straightFlush
  | royalFlush
  deriving DecidableEq, Repr

/-- `HandEvaluator.HAND_RANKS`: numeric rank of each category. -/
def HAND_RANKS : HandType → Nat
  | .highCard => 1
  | .onePair => 2
  | .twoPair => 3
  | .threeOfAKind => 4
  | .straight => 5
  | .flush => 6
  | .fullHouse => 7
  | .fourOfAKind => 8
  | .straightFlush => 9
  | .royalFlush => 10

/-- Python `tuple.__gt__` on integer tuples: lexicographic, first difference
decides, a proper prefix is smaller than the longer tuple. -/
def tupleGt : List Nat → List Nat → Bool
  | [], _ => false
  | _ :: _, [] => true
  | a :: as, b :: bs => if b < a then true else if a < b then false else tupleGt as bs

/-- The rank indices of a list of cards (`ranks` in `evaluate_hand`). -/
def rankList (cards : List Card) : List Nat :=
  cards.map (fun c => (c.rank : Nat))

/-- Ordering for `sorted(rank_counts.items(), key=lambda x: (x[1], x[0]),
reverse=True)`: rank `r` sorts before rank `s` when the pair
(count, rank) of `r` is lexicographically at least that of `s`.  All sort
keys here are distinct, so any sort realises the Python stable sort. -/
def countKeyRel (ranks : List Nat) (r s : Nat) : Prop :=
  ranks.count s < ranks.count r ∨ (ranks.count s = ranks.count r ∧ s ≤ r)

instance (ranks : List Nat) : DecidableRel (countKeyRel ranks) := fun r s => by
  unfold countKeyRel
  infer_instance

instance (ranks : List Nat) : IsTotal Nat (countKeyRel ranks) :=
  ⟨fun r s => by unfold countKeyRel; omega⟩

instance (ranks : List Nat) : IsTrans Nat (countKeyRel ranks) :=
  ⟨fun r s t h1 h2 => by unfold countKeyRel at h1 h2 ⊢; omega⟩

/-- `HandEvaluator.evaluate_hand`: evaluate a 5-card hand to
`(hand_type, tiebreaker_values)`.  The Python dict `rank_counts` maps each
distinct rank to its multiplicity; its key set is embedded as
`ranks.dedup` (all uses are re-sorted, so the dict iteration order is
irrelevant) and the multiplicity as `ranks.count`. -/
def evaluate_hand (cards : List Card) : HandType × List Nat :=
  let ranks := rankList cards
  let suits := cards.map (fun c => c.suit)
  let counts := ((ranks.dedup).map (fun r => ranks.count r)).insertionSort (· ≥ ·)
  let is_flush := suits.dedup.length == 1
  let sorted_ranks := ranks.insertionSort (· ≤ ·)
  let is_straight :=
    (sorted_ranks.getLast?.getD 0 - sorted_ranks.head?.getD 0 == 4)
      && (ranks.dedup.length == 5)
  let is_wheel := sorted_ranks == [0, 1, 2, 3, 12]
  let tiebreaker := (ranks.dedup).insertionSort (countKeyRel ranks)
  if ((is_straight || is_wheel) && is_flush) && (ranks.contains 12 && ranks.contains 9) then
    (.royalFlush, tiebreaker)
  else if (is_straight || is_wheel) && is_flush then
    (.straightFlush, tiebreaker)
  else if counts == [4, 1] then
    (.fourOfAKind, tiebreaker)
  else if counts == [3, 2] then
    (.fullHouse, tiebreaker)
  else if is_flush then
    (.flush, ranks.insertionSort (· ≥ ·))
  else if is_straight || is_wheel then
    (.straight, tiebreaker)
  else if counts == [3, 1, 1] then
    (.threeOfAKind, tiebreaker)
  else if counts == [2, 2, 1] then
    (.twoPair, tiebreaker)
  else if counts == [2, 1, 1, 1] then
    (.onePair, tiebreaker)
  else
    (.highCard, ranks.insertionSort (· ≥ ·))

/-- `itertools.combinations`: all k-element sublists of a list, in the
order Python produces them. -/
def combinations {α : Type} : Nat → List α → List (List α)
  | 0, _ => [[]]
  | _ + 1, [] => []
  | n + 1, x :: xs => (combinations n xs).map (fun c => x :: c) ++ combinations (n + 1) xs

/-- The comparison `rank_value > best_rank or (rank_value == best_rank and
tiebreaker > best_tiebreaker)` from `find_best_hand` (and the analogous
comparisons in `_simulate_game` and `determine_winner`). -/
def evalGt (a b : Nat × List Nat) : Bool :=
  decide (b.1 < a.1) || (decide (a.1 = b.1) && tupleGt a.2 b.2)

/-- One iteration of the `find_best_hand` loop.  The accumulator carries
`(best_hand, best_rank, best_tiebreaker)`; the initial tiebreaker `None` is
embedded as `[]`, which is sound because `best_rank = 0` initially while
every category rank is at least 1, so the tiebreaker comparison against the
initial value is unreachable (in Python it would raise). -/
def bestStep (acc : Option (HandType × List Card) × Nat × List Nat) (combo : List Card) :
    Option (HandType × List Card) × Nat × List Nat :=
  let info := evaluate_hand combo
  let rv := HAND_RANKS info.1
  if evalGt (rv, info.2) (acc.2.1, acc.2.2) then (some (info.1, combo), rv, info.2) else acc

/-- `HandEvaluator.find_best_hand`: best 5-card hand from hole plus
community cards. -/
def find_best_hand (hole community : List Card) : Option (HandType × List Card) :=
  ((combinations 5 (hole ++ community)).foldl bestStep (none, 0, [])).1

namespace Deck

/-- `Deck.deal`: remove and return the first `num_cards` cards.  The Python
method raises `ValueError` before any mutation when the deck is too small,
so failure is an `error` and the (unreturned) deck is unchanged; on success
it returns the dealt prefix together with the remaining deck. -/
def deal (num_cards : Nat) (cards : List Card) : Except String (List Card × List Card) :=
  if num_cards > cards.length then
    .error "Not enough cards in the deck to deal"
  else
    .ok (cards.take num_cards, cards.drop num_cards)

end Deck

/-- The fields of `poker_game.Player` that the pot engine and the betting
round read or mutate.  Stacks and bets are Python ints, embedded as `Int`. -/
structure Player where
  player_id : Nat
  stack : Int
  total_bet_this_round : Int
  is_folded : Bool
  deriving DecidableEq, Repr

/-- A pot as produced by the pot engine: `{'amount': ..,
'eligible_players': ..}`. -/
structure Pot where
  amount : Int
  eligible_players : List Nat
  deriving DecidableEq, Repr

/-- Modelled from the spec: the distinct positive `total_bet_this_round`
values among the non-folded players, sorted ascending — the levels
L1 < L2 < ... < Lk of §4.2 (`create_side_pots` is exercised by
`game_test_suite.py` but its definition is not among the given sources). -/
def sidePotLevels (players : List Player) : List Int :=
  (((players.filter (fun p => !p.is_folded)).map
        (fun p => p.total_bet_this_round)).filter
      (fun b => decide (0 < b))).dedup.insertionSort (· ≤ ·)

/-- Number of non-folded players whose bet is at least `lvl`. -/
def countAtLeast (players : List Player) (lvl : Int) : Nat :=
  ((players.filter (fun p => !p.is_folded)).filter
    (fun p => decide (lvl ≤ p.total_bet_this_round))).length

/-- Ids of the non-folded players whose bet is at least `lvl`. -/
def eligibleAtLeast (players : List Player) (lvl : Int) : List Nat :=
  ((players.filter (fun p => !p.is_folded)).filter
    (fun p => decide (lvl ≤ p.total_bet_this_round))).map (fun p => p.player_id)

/-- One pot per level: amount `(L_i − L_{i−1}) × count(bet ≥ L_i)` with the
previous level threaded through (`L_0 = 0`), eligibility the non-folded
players with bet ≥ L_i. -/
def sidePotsFrom (players : List Player) : Int → List Int → List Pot
  | _, [] => []
  | prev, lvl :: rest =>
    { amount := (lvl - prev) * (countAtLeast players lvl : Int),
      eligible_players := eligibleAtLeast players lvl } :: sidePotsFrom players lvl rest

/-- Modelled from the spec: `PokerGame.create_side_pots` per §4.2 — one pot
per distinct positive bet level among non-folded players, ascending, main
pot first. -/
def create_side_pots (players : List Player) : List Pot :=
  sidePotsFrom players 0 (sidePotLevels players)

/-- The four player actions of the betting round.  A raise carries the
raise amount (the AI uses `min(big_blind, stack)`, a human any clamped
amount; the embedding admits any integer, which covers both). -/
inductive PlayerAction where
  | fold
  | check
  | call
  | raise (amount : Int)
  deriving DecidableEq, Repr

/-- The game state the betting round reads and mutates: the player list,
the pot, the street's current bet, the acted-since-last-raise set
(`players_who_acted_this_level`, a Python set embedded as a duplicate-free
list) and the current player index. -/
structure BetState where
  players : List Player
  pot : Int
  current_bet : Int
  acted : List Nat
  idx : Nat
  deriving DecidableEq, Repr

/-- Applying one action to the player at index `i`, exactly as the body of
`betting_round` does (fold sets the flag; call moves `min(to_call, stack)`
when `to_call > 0` and lifts `current_bet` to the new total if larger;
raise moves `min(to_call + amount, stack)` and sets `current_bet` to the
new total; check changes nothing). -/
def applyAction (s : BetState) (i : Nat) (a : PlayerAction) : BetState :=
  match s.players[i]? with
  | none => s
  | some p =>
    let to_call := s.current_bet - p.total_bet_this_round
    match a with
    | .fold => { s with players := s.players.set i { p with is_folded := true } }
    | .check => s
    | .call =>
      if 0 < to_call then
        let bet_amount := min to_call p.stack
        let p' := { p with stack := p.stack - bet_amount,
                           total_bet_this_round := p.total_bet_this_round + bet_amount }
        { s with players := s.players.set i p',
                 pot := s.pot + bet_amount,
                 current_bet := max s.current_bet p'.total_bet_this_round }
      else s
    | .raise amount =>
      let bet_amount := min (to_call + amount) p.stack
      let p' := { p with stack := p.stack - bet_amount,
                         total_bet_this_round := p.total_bet_this_round + bet_amount }
      { s with players := s.players.set i p',
               pot := s.pot + bet_amount,
               current_bet := p'.total_bet_this_round }

/-- The players that are not folded and still have chips
(`[p for p in self.players if not p.is_folded and p.stack > 0]`). -/
def activeWithChips (players : List Player) : List Player :=
  players.filter (fun p => !p.is_folded && decide (0 < p.stack))

/-- The non-folded players (`[p for p in self.players if not p.is_folded]`). -/
def unfoldedPlayers (players : List Player) : List Player :=
  players.filter (fun p => !p.is_folded)

/-- Every non-folded player has acted since the last raise. -/
def allActed (s : BetState) : Bool :=
  (unfoldedPlayers s.players).all (fun p => s.acted.contains p.player_id)

/-- Every non-folded player's bet equals the street's current bet. -/
def allMatched (s : BetState) : Bool :=
  (unfoldedPlayers s.players).all (fun p => decide (p.total_bet_this_round = s.current_bet))

/-- The `while True` loop of `betting_round`, parameterised by the action
source `pol` (AI strategy or human input) and a fuel bound; `none` means
the bound was exhausted (or the player index fell out of range, which is
unreachable from the entry point).  A skipped player (folded or zero
stack) only advances the index; an acting player's action is applied, the
acted set is updated (a
raise resets it to the raiser alone), and then the three completion checks
of lines 289–305 run in order. -/
def bettingLoop (pol : BetState → PlayerAction) : Nat → BetState → Option BetState
  | 0, _ => none
  | fuel + 1, s =>
    match s.players[s.idx]? with
    | none => none
    | some p =>
      if p.is_folded || p.stack == 0 then
        bettingLoop pol fuel { s with idx := (s.idx + 1) % s.players.length }
      else
        let a := pol s
        let s1 := applyAction s s.idx a
        let acted1 : List Nat :=
          match a with
          | .raise _ => [p.player_id]
          | _ => s.acted
        let acted2 := if acted1.contains p.player_id then acted1 else acted1 ++ [p.player_id]
        let s2 := { s1 with acted := acted2 }
        if (activeWithChips s2.players).length ≤ 1 then some s2
        else if (unfoldedPlayers s2.players).length ≤ 1 then some s2
        else if allActed s2 && allMatched s2 then some s2
        else bettingLoop pol fuel { s2 with idx := (s2.idx + 1) % s2.players.length }

/-- `PokerGame.betting_round`: for Pre-Flop the first actor is
`(button + 3) % n`, otherwise `(button + 1) % n`; if at most one non-folded
player with chips remains at entry the street is not run and the state is
returned unchanged. -/
def betting_round (pol : BetState → PlayerAction) (fuel : Nat) (preflop : Bool) (button : Nat)
    (players : List Player) (pot current_bet : Int) : Option BetState :=
  let s0 : BetState :=
    { players := players, pot := pot, current_bet := current_bet, acted := [],
      idx := (button + (if preflop then 3 else 1)) % players.length }
  if (activeWithChips players).length ≤ 1 then some s0
  else bettingLoop pol fuel s0

/-- `PokerGame.post_blinds`: the small blind `(button+1) % n` and big blind
`(button+2) % n` each post `min(blind, stack)`; `total_bet_this_round` is
assigned (not incremented) and `current_bet` becomes the posted big-blind
amount.  Returns (players, pot, current_bet). -/
def post_blinds (players : List Player) (pot : Int) (button : Nat)
    (small_blind big_blind : Int) : List Player × Int × Int :=
  let n := players.length
  let sb_i := (button + 1) % n
  let bb_i := (button + 2) % n
  match players[sb_i]? with
  | none => (players, pot, 0)
  | some sbp =>
    let sb_amount := min small_blind sbp.stack
    let players1 := players.set sb_i
      { sbp with stack := sbp.stack - sb_amount, total_bet_this_round := sb_amount }
    let pot1 := pot + sb_amount
    match players1[bb_i]? with
    | none => (players1, pot1, 0)
    | some bbp =>
      let bb_amount := min big_blind bbp.stack
      let players2 := players1.set bb_i
        { bbp with stack := bbp.stack - bb_amount, total_bet_this_round := bb_amount }
      (players2, pot1 + bb_amount, bb_amount)

/-- The duplicate test of `calculate_win_probability` intersects the sets
of card `str` values; `str` (rank text plus suit initial) is injective on
constructor-validated cards, so the test is membership up to card
equality. -/
def hasDuplicate (hole community : List Card) : Bool :=
  hole.any (fun c => community.contains c)

/-- The validation prefix of
`WinProbabilityCalculator.calculate_win_probability` (lines 39–52), run
before any simulation; the first failing check raises. -/
def validate_win_probability (hole community : List Card) (num_opponents : Int) :
    Except String Unit :=
  if hole.length ≠ 2 then
    .error "Player must have exactly 2 hole cards"
  else if !([0, 3, 4, 5].contains community.length) then
    .error "Community cards must be 0, 3, 4, or 5 cards"
  else if num_opponents < 1 then
    .error "Must have at least 1 opponent"
  else if hasDuplicate hole community then
    .error "Player cards and community cards have duplicates"
  else
    .ok ()

/-- The validation prefix of
`WinProbabilityCalculator.calculate_vs_specific_hands` (lines 244–248):
only the hole-card count and the community-card count are checked. -/
def validate_vs_specific_hands (hole community : List Card) : Except String Unit :=
  if hole.length ≠ 2 then
    .error "Player must have exactly 2 hole cards"
  else if !([0, 3, 4, 5].contains community.length) then
    .error "Community cards must be 0, 3, 4, or 5 cards"
  else
    .ok ()

/-- Trial outcome of `_simulate_game` (returned as the strings
`"win"`, `"tie"`, `"loss"`). -/
inductive TrialResult where
  | win
  | tie
  | loss
  deriving DecidableEq, Repr

/-- Best-hand evaluation of a player as `_simulate_game` computes it:
`find_best_hand`, then the category rank and the re-evaluated
tiebreaker of the returned five cards. -/
def bestEval (hole community : List Card) : Option (Nat × List Nat) :=
  (find_best_hand hole community).map
    (fun bh => (HAND_RANKS bh.1, (evaluate_hand bh.2).2))

/-- The deterministic classification core of
`WinProbabilityCalculator._simulate_game` (lines 117–153), given the
sampled opponent hole cards and the completed five-card community (the
trial's randomness).  The opponent loop keeps `(best_opponent_rank,
best_opponent_tiebreaker)` and updates them only on a strictly greater
rank; the initial `None` tiebreaker is embedded as `[]`, unreachable in
the final comparison because every category rank is positive. -/
def simulate_game (player_hole community : List Card)
    (opponent_holes : List (List Card)) : Option TrialResult := do
  let pe ← bestEval player_hole community
  let oppEvals ← opponent_holes.mapM (fun h => bestEval h community)
  let best := oppEvals.foldl
    (fun acc e => if acc.1 < e.1 then e else acc) ((0 : Nat), ([] : List Nat))
  if best.1 < pe.1 then pure .win
  else if pe.1 = best.1 then
    if tupleGt pe.2 best.2 then pure .win
    else if pe.2 = best.2 then pure .tie
    else pure .loss
  else pure .loss

/-- `PokerBotType`: tightness and aggression scalars (floats in [0,1],
embedded as rationals). -/
structure PokerBotType where
  tightness : ℚ
  aggression : ℚ

/-- Python `int()` applied to a float/rational: truncation toward zero. -/
def pyInt (q : ℚ) : Int :=
  q.num.tdiv (q.den : Int)

/-- `PokerBot._get_position_multiplier`: dict lookup with default 0.8. -/
def get_position_multiplier (position : String) : ℚ :=
  if position = "early" then 1/2
  else if position = "middle" then 4/5
  else if position = "late" then 13/10
  else 4/5

/-- `PokerBot._simple_hand_strength`: the deterministic rank-based
fallback heuristic. -/
def simple_hand_strength (hole community : List Card) : ℚ :=
  match find_best_hand hole community with
  | none => 0
  | some bh => (HAND_RANKS bh.1 : ℚ) / 10

/-- `PokerBot._get_equity`: the Monte Carlo call is abstracted as an
oracle `mc` that either yields the computed equity or fails (any raised
exception); the `try`/`except` replaces a failure with the rank-based
fallback, and fewer than one opponent short-circuits to 0.5. -/
def get_equity (mc : Except String ℚ) (hole community : List Card)
    (num_opponents : Int) : ℚ :=
  if num_opponents < 1 then 1/2
  else
    match mc with
    | .ok v => v
    | .error _ => simple_hand_strength hole community

/-- `PokerBot._preflop_hand_strength`: closed-form strength of the two
hole cards (`rank_values` maps rank index `r` to `r + 2`). -/
def preflop_hand_strength (hole : List Card) : ℚ :=
  match hole with
  | [c1, c2] =>
    let v1 : ℚ := ((c1.rank : Nat) : ℚ) + 2
    let v2 : ℚ := ((c2.rank : Nat) : ℚ) + 2
    if c1.rank = c2.rank then
      3/5 + (max v1 v2 - 2) / 12 * (2/5)
    else if v1 = 14 ∨ v2 = 14 then
      let low := min v1 v2
      let base : ℚ := if 10 ≤ low then 3/4 else if 6 ≤ low then 1/2 else 7/20
      base + (if c1.suit = c2.suit then 3/20 else 0)
    else if 12 ≤ v1 ∨ 12 ≤ v2 then
      11/20 + (if c1.suit = c2.suit then 1/10 else 0)
    else if c1.suit = c2.suit then
      3/10 + (max v1 v2 - 2) / 12 * (1/5)
    else
      3/20 + (max v1 v2 - 2) / 12 * (3/20)
  | _ => 0

/-- `PokerBot._evaluate_hand_strength`: pre-flop heuristic below three
community cards, otherwise the best-hand category rank scaled to [0,1]. -/
def evaluate_hand_strength (hole community : List Card) : ℚ :=
  if community.length < 3 then preflop_hand_strength hole
  else
    match find_best_hand hole community with
    | none => 0
    | some bh => (HAND_RANKS bh.1 : ℚ) / 10

/-- `PokerBot._calculate_raise_amount`. -/
def calculate_raise_amount (bot : PokerBotType) (to_call player_stack : Int)
    (hand_strength : ℚ) : Int :=
  let min_raise := to_call
  let max_raise := pyInt ((player_stack : ℚ) * (1/2))
  let raise_amount :=
    pyInt ((min_raise : ℚ) + ((max_raise : ℚ) - (min_raise : ℚ)) * bot.aggression * hand_strength)
  max min_raise (min raise_amount player_stack)

/-- `PokerBot._decide_check_or_bet`; `r` is the `random.random()` draw. -/
def decide_check_or_bet (bot : PokerBotType) (r : ℚ) (equity hand_strength : ℚ)
    (num_opponents : Int) (player_stack : Int) : String × Option Int :=
  if 13/20 < hand_strength ∨ (13/20 < equity ∧ num_opponents ≤ 2) then
    if r < bot.aggression then
      ("raise", some (pyInt ((player_stack : ℚ) * (1/4))))
    else ("check", none)
  else ("check", none)

/-- `PokerBot._make_decision` (the `stack_depth`, `is_preflop` and
`current_bet` arguments of the source are never read by its logic and are
omitted). -/
def make_decision (bot : PokerBotType) (r : ℚ) (to_call player_stack : Int)
    (equity hand_strength pot_odds position_multiplier : ℚ) (num_opponents : Int) :
    String × Option Int :=
  let fold_threshold := (7/20 + bot.tightness * (3/10)) * position_multiplier
  if to_call = 0 then
    decide_check_or_bet bot r equity hand_strength num_opponents player_stack
  else if equity < fold_threshold then ("fold", none)
  else
    let call_threshold := pot_odds * (4/5)
    if call_threshold ≤ equity ∨ 1/2 < equity then
      if r < bot.aggression ∧ 2/5 < hand_strength then
        ("raise", some (calculate_raise_amount bot to_call player_stack hand_strength))
      else ("call", none)
    else ("fold", none)

/-- `PokerBot._decide_with_limited_equity`: forced all-in decision. -/
def decide_with_limited_equity (mc : Except String ℚ) (hole community : List Card)
    (num_opponents : Int) : String × Option Int :=
  let equity := get_equity mc hole community num_opponents
  if 2/5 < equity then ("call", none) else ("fold", none)

/-- `PokerBot.decide_action`: the full decision pipeline.  The Monte Carlo
estimator is the oracle `mc` and the single `random.random()` draw on the
taken branch is `r`; both are parameters because the embedding is
deterministic (`current_bet`, `small_blind` and `big_blind` feed only the
unused `stack_depth`, and are dropped with it). -/
def decide_action (bot : PokerBotType) (mc : Except String ℚ) (r : ℚ)
    (hole community : List Card) (to_call player_stack pot : Int)
    (position : String) (num_opponents : Int) : String × Option Int :=
  if player_stack < to_call then
    decide_with_limited_equity mc hole community num_opponents
  else
    let equity := get_equity mc hole community num_opponents
    let hand_strength := evaluate_hand_strength hole community
    let pot_odds :=
      if 0 < pot + to_call then (to_call : ℚ) / ((pot : ℚ) + (to_call : ℚ)) else 0
    let position_multiplier := get_position_multiplier position
    make_decision bot r to_call player_stack equity hand_strength pot_odds
      position_multiplier num_opponents

/-! ## Concrete cards and states used by the witnesses and counterexamples -/

/-- Helper to write concrete cards. -/
def mkCard (s : Fin 4) (r : Fin 13) : Card :=
  ⟨s, r⟩

/-- Helper to write concrete players. -/
def mkPlayer (pid : Nat) (st tb : Int) (f : Bool) : Player :=
  ⟨pid, st, tb, f⟩

/-- The wheel A-2-3-4-5 in mixed suits (A♥ 2♥ 3♦ 4♠ 5♣). -/
def wheelHand : List Card :=
  [mkCard 0 12, mkCard 0 0, mkCard 1 1, mkCard 3 2, mkCard 2 3]

/-- The six-high straight 2-3-4-5-6 in mixed suits. -/
def sixHighHand : List Card :=
  [mkCard 0 0, mkCard 0 1, mkCard 1 2, mkCard 3 3, mkCard 2 4]

/-! ## C9 — Deck.deal -/

/-- C9: `Deck.deal(n)` fails exactly when `n` exceeds the remaining count
(and, the exception being raised before any mutation, the deck is then
unchanged); otherwise it returns the first `n` cards and leaves the
remaining cards, in their prior order, so the remaining count drops by
exactly `n`. -/
theorem deal_spec (n : Nat) (d : List Card) :
    (d.length < n → Deck.deal n d = Except.error "Not enough cards in the deck to deal") ∧
    (n ≤ d.length →
      Deck.deal n d = Except.ok (d.take n, d.drop n) ∧
      (d.take n).length = n ∧
      d.take n ++ d.drop n = d ∧
      (d.drop n).length = d.length - n) := by
  refine ⟨fun h => ?_, fun h => ⟨?_, ?_, List.take_append_drop n d, List.length_drop n d⟩⟩
  · unfold Deck.deal
    rw [if_pos h]
  · unfold Deck.deal
    rw [if_neg (by omega)]
  · rw [List.length_take]
    omega

/-- A concrete three-card deck. -/
def deckW : List Card := [mkCard 0 0, mkCard 1 1, mkCard 2 2]

/-- Witness for C9: dealing 2 of 3 cards succeeds with the first two cards
and the third remaining; dealing 7 of 3 fails. -/
theorem deal_spec_witness :
    Deck.deal 2 deckW = Except.ok ([mkCard 0 0, mkCard 1 1], [mkCard 2 2]) ∧
    Deck.deal 7 deckW = Except.error "Not enough cards in the deck to deal" := by
  exact ⟨((deal_spec 2 deckW).2 (by decide)).1.trans rfl,
    (deal_spec 7 deckW).1 (by decide)⟩

/-! ## C3 — wheel tiebreaker -/

set_option maxRecDepth 4000 in
/-- C3 (code bug, failing evaluation): `evaluate_hand` builds the
tiebreaker of a straight from the raw rank indices, so the wheel
A-2-3-4-5 gets tiebreaker (A,5,4,3,2) = (12,3,2,1,0) and compares
strictly ABOVE the six-high straight (4,3,2,1,0) — the claim (and
standard poker ranking, with the Ace counting low in the wheel) requires
it to compare below every higher straight. -/
theorem wheel_outranks_six_high :
    evaluate_hand wheelHand = (HandType.straight, [12, 3, 2, 1, 0]) ∧
    evaluate_hand sixHighHand = (HandType.straight, [4, 3, 2, 1, 0]) ∧
    evalGt (HAND_RANKS HandType.straight, [12, 3, 2, 1, 0])
        (HAND_RANKS HandType.straight, [4, 3, 2, 1, 0]) = true := by
  decide

/-! ## C2 — _simulate_game classification -/

/-- Community A♥ K♦ 8♣ 3♠ 2♦. -/
def c2Community : List Card :=
  [mkCard 0 12, mkCard 1 11, mkCard 2 6, mkCard 3 1, mkCard 1 0]

/-- Subject holds Q♠ 10♥ (best: A K Q 10 8 high). -/
def c2PlayerHole : List Card := [mkCard 3 10, mkCard 0 8]

/-- First sampled opponent holds 4♥ 6♦ (best: A K 8 6 4 high). -/
def c2Opp1 : List Card := [mkCard 0 2, mkCard 1 4]

/-- Second sampled opponent holds Q♦ J♣ (best: A K Q J 8 high). -/
def c2Opp2 : List Card := [mkCard 1 10, mkCard 2 9]

set_option maxRecDepth 8000 in
/-- C2 (code bug, failing trial): `_simulate_game` updates its running
best-opponent evaluation only on a strictly greater category rank and
never on a greater tiebreaker at equal rank (unlike
`calculate_vs_specific_hands`), so in this trial it compares the subject
against the first opponent only and classifies the trial "win", although
the second opponent's evaluation (1, [12,11,10,9,6]) is the maximum over
the sampled opponents and strictly exceeds the subject's
(1, [12,11,10,8,6]) — by the claim the trial is a loss. -/
theorem simulate_game_ignores_max_tiebreaker :
    simulate_game c2PlayerHole c2Community [c2Opp1, c2Opp2] = some TrialResult.win ∧
    bestEval c2PlayerHole c2Community = some (1, [12, 11, 10, 8, 6]) ∧
    bestEval c2Opp2 c2Community = some (1, [12, 11, 10, 9, 6]) ∧
    evalGt (1, [12, 11, 10, 9, 6]) (1, [12, 11, 10, 8, 6]) = true := by
  decide

/-! ## C5 — validation of the win-probability entry points -/

/-- C5 (amended): `calculate_win_probability` validates, before any
simulation, exactly the four conditions (2 hole cards, community length
in {0,3,4,5}, at least one opponent, no card in both hole and community);
`calculate_vs_specific_hands` performs only the first two of these
validations before its simulation loop. -/
theorem validation_spec (hole community : List Card) (num_opponents : Int) :
    (validate_win_probability hole community num_opponents = Except.ok () ↔
      (hole.length = 2 ∧
        (community.length = 0 ∨ community.length = 3 ∨ community.length = 4 ∨
          community.length = 5) ∧
        1 ≤ num_opponents ∧ hasDuplicate hole community = false)) ∧
    (validate_vs_specific_hands hole community = Except.ok () ↔
      (hole.length = 2 ∧
        (community.length = 0 ∨ community.length = 3 ∨ community.length = 4 ∨
          community.length = 5))) := by
  have hmem : ∀ n : Nat, (([0, 3, 4, 5] : List Nat).contains n = true) ↔
      (n = 0 ∨ n = 3 ∨ n = 4 ∨ n = 5) := by
    intro n
    simp [List.elem_iff]
  constructor
  · unfold validate_win_probability
    split_ifs with h1 h2 h3 h4
    · exact iff_of_false (by simp) (fun h => h1 h.1)
    · refine iff_of_false (by simp) (fun h => ?_)
      rw [Bool.not_eq_true'] at h2
      rw [(hmem community.length).2 h.2.1] at h2
      simp at h2
    · exact iff_of_false (by simp) (fun h => absurd h.2.2.1 (by omega))
    · refine iff_of_false (by simp) (fun h => ?_)
      rw [h.2.2.2] at h4
      simp at h4
    · refine iff_of_true rfl ⟨not_ne_iff.mp h1, ?_, by omega, ?_⟩
      · refine (hmem community.length).1 ?_
        revert h2
        cases ([0, 3, 4, 5] : List Nat).contains community.length <;> simp
      · revert h4
        cases hasDuplicate hole community <;> simp
  · unfold validate_vs_specific_hands
    split_ifs with h1 h2
    · exact iff_of_false (by simp) (fun h => h1 h.1)
    · refine iff_of_false (by simp) (fun h => ?_)
      rw [Bool.not_eq_true'] at h2
      rw [(hmem community.length).2 h.2] at h2
      simp at h2
    · refine iff_of_true rfl ⟨not_ne_iff.mp h1, ?_⟩
      refine (hmem community.length).1 ?_
      revert h2
      cases ([0, 3, 4, 5] : List Nat).contains community.length <;> simp

/-- C5 counterexample: with hole A♠ K♠ and community containing the same
A♠ (a hole/community duplicate) `calculate_vs_specific_hands`'s
validation succeeds, so it does not perform the duplicate check the claim
asserts (nor the opponent-count check). -/
theorem vs_specific_hands_skips_duplicate_check :
    hasDuplicate [mkCard 3 12, mkCard 3 11]
        [mkCard 3 12, mkCard 0 0, mkCard 1 1] = true ∧
    validate_vs_specific_hands [mkCard 3 12, mkCard 3 11]
        [mkCard 3 12, mkCard 0 0, mkCard 1 1] = Except.ok () ∧
    validate_win_probability [mkCard 3 12, mkCard 3 11]
        [mkCard 3 12, mkCard 0 0, mkCard 1 1] 1 =
      Except.error "Player cards and community cards have duplicates" := by
  refine ⟨by decide, rfl, rfl⟩

/-! ## C10 — chip conservation -/

/-- Total chips in the players' stacks. -/
def stackSum (players : List Player) : Int :=
  (players.map (fun p => p.stack)).sum

lemma stackSum_set (l : List Player) (i : Nat) (p p' : Player)
    (hp : l[i]? = some p) :
    stackSum (l.set i p') = stackSum l - p.stack + p'.stack := by
  induction l generalizing i with
  | nil => simp at hp
  | cons a l ih =>
    cases i with
    | zero =>
      simp only [List.getElem?_cons_zero, Option.some.injEq] at hp
      subst hp
      simp only [List.set, stackSum, List.map_cons, List.sum_cons]
      ring
    | succ j =>
      simp only [List.getElem?_cons_succ] at hp
      have h := ih j hp
      simp only [List.set, stackSum, List.map_cons, List.sum_cons] at h ⊢
      omega

lemma succ_mod_ne {n : Nat} (b : Nat) (h2 : 2 ≤ n) : (b + 1) % n ≠ (b + 2) % n := by
  intro h
  have e : (b + 2) % n = ((b + 1) % n + 1) % n := by
    rw [show b + 2 = (b + 1) + 1 from rfl, Nat.add_mod,
      Nat.mod_eq_of_lt (show 1 < n by omega)]
  have hx : (b + 1) % n < n := Nat.mod_lt _ (by omega)
  rcases Nat.lt_or_ge ((b + 1) % n + 1) n with hlt | hge
  · rw [e, Nat.mod_eq_of_lt hlt] at h
    omega
  · have hn : (b + 1) % n + 1 = n := by omega
    rw [e, hn, Nat.mod_self] at h
    omega

/-- C10: every action `betting_round` applies (fold, check, call, raise)
and every blind `post_blinds` posts moves an amount capped at the acting
player's stack, taken from the stack and added to both that player's
`total_bet_this_round` and the pot, so the total of stacks plus pot is
conserved, other players are untouched, and no stack goes negative.
(The blind hypotheses — at least two players and zero street bets — are the
state in which `play_hand` calls `post_blinds`.) -/
theorem chips_conserved
    (s : BetState) (i : Nat) (a : PlayerAction) (p : Player)
    (hp : s.players[i]? = some p) (hnn : 0 ≤ p.stack)
    (players : List Player) (pot : Int) (button : Nat) (small_blind big_blind : Int)
    (sbp bbp : Player)
    (h2 : 2 ≤ players.length)
    (hsb : players[(button + 1) % players.length]? = some sbp)
    (hbb : players[(button + 2) % players.length]? = some bbp) :
    (stackSum (applyAction s i a).players + (applyAction s i a).pot
        = stackSum s.players + s.pot ∧
      (∀ j, j ≠ i → (applyAction s i a).players[j]? = s.players[j]?) ∧
      (∃ p', (applyAction s i a).players[i]? = some p' ∧
        p.stack - p'.stack = (applyAction s i a).pot - s.pot ∧
        p'.total_bet_this_round - p.total_bet_this_round
          = (applyAction s i a).pot - s.pot ∧
        (applyAction s i a).pot - s.pot ≤ p.stack ∧
        0 ≤ p'.stack)) ∧
    ((post_blinds players pot button small_blind big_blind).2.1
        = pot + min small_blind sbp.stack + min big_blind bbp.stack ∧
      stackSum (post_blinds players pot button small_blind big_blind).1
          + (post_blinds players pot button small_blind big_blind).2.1
        = stackSum players + pot ∧
      (post_blinds players pot button small_blind big_blind).1[(button + 1) % players.length]?
        = some { sbp with stack := sbp.stack - min small_blind sbp.stack,
                          total_bet_this_round := min small_blind sbp.stack } ∧
      (post_blinds players pot button small_blind big_blind).1[(button + 2) % players.length]?
        = some { bbp with stack := bbp.stack - min big_blind bbp.stack,
                          total_bet_this_round := min big_blind bbp.stack } ∧
      min small_blind sbp.stack ≤ sbp.stack ∧
      min big_blind bbp.stack ≤ bbp.stack ∧
      ((∀ q ∈ players, 0 ≤ q.stack) →
        ∀ q ∈ (post_blinds players pot button small_blind big_blind).1, 0 ≤ q.stack)) := by
  constructor
  · have hset : ∀ p' : Player,
        (∀ j, j ≠ i → (s.players.set i p')[j]? = s.players[j]?) ∧
          (s.players.set i p')[i]? = some p' := by
      intro p'
      refine ⟨fun j hj => List.getElem?_set_ne fun h => hj h.symm, ?_⟩
      rw [List.getElem?_set_self', hp]
      rfl
    cases a with
    | fold =>
      have hs : applyAction s i PlayerAction.fold
          = { s with players := s.players.set i { p with is_folded := true } } := by
        unfold applyAction
        rw [hp]
      rw [hs]
      refine ⟨?_, (hset _).1, ⟨{ p with is_folded := true }, (hset _).2, ?_, ?_, ?_, ?_⟩⟩
      · show stackSum (s.players.set i _) + s.pot = stackSum s.players + s.pot
        rw [stackSum_set s.players i p _ hp]
        ring
      all_goals dsimp only
      all_goals omega
    | check =>
      have hs : applyAction s i PlayerAction.check = s := by
        unfold applyAction
        rw [hp]
      rw [hs]
      exact ⟨rfl, fun _ _ => rfl, ⟨p, hp, by omega, by omega, by omega, hnn⟩⟩
    | call =>
      by_cases hpos : 0 < s.current_bet - p.total_bet_this_round
      · have hs : applyAction s i PlayerAction.call
            = { s with
                players := s.players.set i
                  { p with
                    stack := p.stack - min (s.current_bet - p.total_bet_this_round) p.stack,
                    total_bet_this_round := p.total_bet_this_round
                      + min (s.current_bet - p.total_bet_this_round) p.stack },
                pot := s.pot + min (s.current_bet - p.total_bet_this_round) p.stack,
                current_bet := max s.current_bet
                  (p.total_bet_this_round
                    + min (s.current_bet - p.total_bet_this_round) p.stack) } := by
          unfold applyAction
          rw [hp]
          dsimp only
          rw [if_pos hpos]
        rw [hs]
        refine ⟨?_, (hset _).1, ⟨_, (hset _).2, ?_, ?_, ?_, ?_⟩⟩
        · show stackSum (s.players.set i _) + _ = stackSum s.players + s.pot
          rw [stackSum_set s.players i p _ hp]
          dsimp only
          ring
        all_goals dsimp only
        all_goals omega
      · have hs : applyAction s i PlayerAction.call = s := by
          unfold applyAction
          rw [hp]
          dsimp only
          rw [if_neg hpos]
        rw [hs]
        exact ⟨rfl, fun _ _ => rfl, ⟨p, hp, by omega, by omega, by omega, hnn⟩⟩
    | raise amount =>
      have hs : applyAction s i (PlayerAction.raise amount)
          = { s with
              players := s.players.set i
                { p with
                  stack := p.stack
                    - min (s.current_bet - p.total_bet_this_round + amount) p.stack,
                  total_bet_this_round := p.total_bet_this_round
                    + min (s.current_bet - p.total_bet_this_round + amount) p.stack },
              pot := s.pot + min (s.current_bet - p.total_bet_this_round + amount) p.stack,
              current_bet := p.total_bet_this_round
                + min (s.current_bet - p.total_bet_this_round + amount) p.stack } := by
        unfold applyAction
        rw [hp]
      rw [hs]
      refine ⟨?_, (hset _).1, ⟨_, (hset _).2, ?_, ?_, ?_, ?_⟩⟩
      · show stackSum (s.players.set i _) + _ = stackSum s.players + s.pot
        rw [stackSum_set s.players i p _ hp]
        dsimp only
        ring
      all_goals dsimp only
      all_goals omega
  · have hne := succ_mod_ne (n := players.length) button h2
    have hbb1 :
        (players.set ((button + 1) % players.length)
            { sbp with stack := sbp.stack - min small_blind sbp.stack,
                       total_bet_this_round := min small_blind sbp.stack })[
          (button + 2) % players.length]? = some bbp := by
      rw [List.getElem?_set_ne hne, hbb]
    simp only [post_blinds, hsb, hbb1]
    refine ⟨trivial, ?_, ?_, ?_, min_le_right _ _, min_le_right _ _, ?_⟩
    · rw [stackSum_set _ _ bbp _ hbb1, stackSum_set players _ sbp _ hsb]
      simp only []
      ring
    · rw [List.getElem?_set_ne (Ne.symm hne), List.getElem?_set_self', hsb]
      rfl
    · rw [List.getElem?_set_self', hbb1]
      rfl
    · intro hall q hq
      rcases List.mem_or_eq_of_mem_set hq with hq1 | hq1
      · rcases List.mem_or_eq_of_mem_set hq1 with hq2 | hq2
        · exact hall q hq2
        · subst hq2
          have := min_le_right small_blind sbp.stack
          simp only []
          omega
      · subst hq1
        have := min_le_right big_blind bbp.stack
        simp only []
        omega

/-- Two players with 100 chips and zero street bets. -/
def cPlayers : List Player := [mkPlayer 0 100 0 false, mkPlayer 1 100 0 false]

/-- A concrete betting state: big blind 10 already the current bet. -/
def cState : BetState :=
  { players := cPlayers, pot := 0, current_bet := 10, acted := [], idx := 0 }

/-- Witness for C10: a concrete call conserves chips and concrete blinds
post the capped amounts. -/
theorem chips_conserved_witness :
    stackSum (applyAction cState 0 PlayerAction.call).players
        + (applyAction cState 0 PlayerAction.call).pot
      = stackSum cState.players + cState.pot ∧
    (post_blinds cPlayers 0 0 5 10).2.1 = 0 + min 5 (100 : Int) + min 10 (100 : Int) := by
  have h := chips_conserved cState 0 PlayerAction.call (mkPlayer 0 100 0 false) rfl
    (by decide) cPlayers 0 0 5 10 (mkPlayer 1 100 0 false) (mkPlayer 0 100 0 false)
    (by decide) rfl rfl
  exact ⟨h.1.1, h.2.1⟩

/-! ## C8 — bot decision safety -/

/-- C8: for every well-formed input (2 hole cards, at most 5 community
cards) `decide_action` returns an action among fold/check/call/raise (the
embedding is a total function: every partial Python operation on this path
is guarded in the source), and a failing Monte Carlo equity calculation is
replaced inside `_get_equity` by the deterministic rank-based heuristic
(0.5 when no opponent), never propagated. -/
theorem decide_action_safe (bot : PokerBotType) (mc : Except String ℚ) (r : ℚ)
    (hole community : List Card) (to_call player_stack pot : Int)
    (position : String) (num_opponents : Int) (e : String)
    (h2 : hole.length = 2) (h5 : community.length ≤ 5) :
    (decide_action bot mc r hole community to_call player_stack pot position
        num_opponents).1 ∈ (["fold", "check", "call", "raise"] : List String) ∧
    get_equity (Except.error e) hole community num_opponents
      = if num_opponents < 1 then 1/2
        else simple_hand_strength hole community := by
  refine ⟨?_, ?_⟩
  · unfold decide_action decide_with_limited_equity make_decision decide_check_or_bet
    dsimp only
    repeat' split
    all_goals simp
  · unfold get_equity
    rfl

/-- Witness for C8: the bot with a failing equity oracle, pocket aces
pre-flop, still returns one of the four actions, and the failed equity is
the fallback heuristic. -/
theorem decide_action_safe_witness :
    ([mkCard 0 12, mkCard 1 12] : List Card).length = 2 ∧
    ([] : List Card).length ≤ 5 ∧
    ((decide_action ⟨3/4, 17/20⟩ (Except.error "sim failure") (1/2)
        [mkCard 0 12, mkCard 1 12] [] 0 500 30 "late" 2).1
        ∈ (["fold", "check", "call", "raise"] : List String) ∧
      get_equity (Except.error "sim failure") [mkCard 0 12, mkCard 1 12] [] 2
        = if (2 : Int) < 1 then 1/2
          else simple_hand_strength [mkCard 0 12, mkCard 1 12] []) :=
  ⟨rfl, by decide,
    decide_action_safe ⟨3/4, 17/20⟩ (Except.error "sim failure") (1/2)
      [mkCard 0 12, mkCard 1 12] [] 0 500 30 "late" 2 "sim failure" rfl (by decide)⟩

/-! ## C1 — side pots -/

lemma sidePotsFrom_length (players : List Player) :
    ∀ (ls : List Int) (prev : Int), (sidePotsFrom players prev ls).length = ls.length := by
  intro ls
  induction ls with
  | nil => intro prev; rfl
  | cons lvl rest ih =>
    intro prev
    simp [sidePotsFrom, ih lvl]

lemma sidePotsFrom_getElem? (players : List Player) :
    ∀ (ls : List Int) (prev : Int) (i : Nat), i < ls.length →
      (sidePotsFrom players prev ls)[i]? = some
        { amount := (ls.getD i 0 - (prev :: ls).getD i 0)
            * (countAtLeast players (ls.getD i 0) : Int),
          eligible_players := eligibleAtLeast players (ls.getD i 0) } := by
  intro ls
  induction ls with
  | nil =>
    intro prev i h
    simp at h
  | cons lvl rest ih =>
    intro prev i h
    cases i with
    | zero => simp [sidePotsFrom]
    | succ j =>
      have hj : j < rest.length := by simpa using h
      simp only [sidePotsFrom, List.getElem?_cons_succ]
      rw [ih lvl j hj]
      simp [List.getD_cons_succ]

lemma sidePotLevels_sorted (players : List Player) :
    (sidePotLevels players).Sorted (· < ·) := by
  have hs : (sidePotLevels players).Sorted (· ≤ ·) :=
    List.sorted_insertionSort (· ≤ ·) _
  have hn : (sidePotLevels players).Nodup :=
    (List.perm_insertionSort (· ≤ ·) _).symm.nodup (List.nodup_dedup _)
  exact (hs.and hn).imp fun h => lt_of_le_of_ne h.1 h.2

lemma mem_sidePotLevels (players : List Player) (v : Int) :
    v ∈ sidePotLevels players ↔
      (0 < v ∧ ∃ p ∈ players, p.is_folded = false ∧ p.total_bet_this_round = v) := by
  unfold sidePotLevels
  rw [(List.perm_insertionSort (· ≤ ·) _).mem_iff, List.mem_dedup, List.mem_filter,
    List.mem_map]
  constructor
  · rintro ⟨⟨p, hp, hv⟩, hpos⟩
    rw [List.mem_filter] at hp
    exact ⟨by simpa using hpos, p, hp.1, by simpa using hp.2, hv⟩
  · rintro ⟨hpos, p, hp, hf, hv⟩
    exact ⟨⟨p, List.mem_filter.2 ⟨hp, by simp [hf]⟩, hv⟩, by simpa using hpos⟩

/-- The 4-player scenario of the claim: non-folded bets 50, 150, 200, 250. -/
def sidePotExamplePlayers : List Player :=
  [mkPlayer 0 0 50 false, mkPlayer 1 0 150 false,
   mkPlayer 2 0 200 false, mkPlayer 3 0 250 false]

/-- C1 (spec-modelled: `create_side_pots` is absent from the given
sources; the definition follows §4.2 of the specification): the pot list
has one pot per level, the levels are exactly the distinct positive
non-folded bets in strictly ascending order, pot `i` holds
`(L_i − L_{i−1}) × count(non-folded with bet ≥ L_i)` with `L_0 = 0` and is
eligible exactly to the non-folded players with bet ≥ L_i; and the
scenario with bets {50,150,200,250} yields the four pots
[200,300,100,50] with eligibility [{0,1,2,3},{1,2,3},{2,3},{3}]. -/
theorem create_side_pots_spec (players : List Player) :
    (create_side_pots players).length = (sidePotLevels players).length ∧
    (sidePotLevels players).Sorted (· < ·) ∧
    (∀ v : Int, v ∈ sidePotLevels players ↔
      (0 < v ∧ ∃ p ∈ players, p.is_folded = false ∧ p.total_bet_this_round = v)) ∧
    (∀ i, i < (sidePotLevels players).length →
      (create_side_pots players)[i]? = some
        { amount := ((sidePotLevels players).getD i 0
              - ((0 : Int) :: sidePotLevels players).getD i 0)
            * (countAtLeast players ((sidePotLevels players).getD i 0) : Int),
          eligible_players :=
            eligibleAtLeast players ((sidePotLevels players).getD i 0) }) ∧
    create_side_pots sidePotExamplePlayers =
      [{ amount := 200, eligible_players := [0, 1, 2, 3] },
       { amount := 300, eligible_players := [1, 2, 3] },
       { amount := 100, eligible_players := [2, 3] },
       { amount := 50, eligible_players := [3] }] :=
  ⟨sidePotsFrom_length players _ 0, sidePotLevels_sorted players,
    mem_sidePotLevels players,
    fun i h => sidePotsFrom_getElem? players _ 0 i h, by decide⟩

/-- Witness for C1: the second pot of the scenario instantiates the
per-index characterisation. -/
theorem create_side_pots_spec_witness :
    1 < (sidePotLevels sidePotExamplePlayers).length ∧
    (create_side_pots sidePotExamplePlayers)[1]? = some
      { amount := ((sidePotLevels sidePotExamplePlayers).getD 1 0
            - ((0 : Int) :: sidePotLevels sidePotExamplePlayers).getD 1 0)
          * (countAtLeast sidePotExamplePlayers
              ((sidePotLevels sidePotExamplePlayers).getD 1 0) : Int),
        eligible_players :=
          eligibleAtLeast sidePotExamplePlayers
            ((sidePotLevels sidePotExamplePlayers).getD 1 0) } :=
  ⟨by decide, (create_side_pots_spec sidePotExamplePlayers).2.2.2.1 1 (by decide)⟩

/-! ## C6 — find_best_hand optimality -/

lemma tupleGt_irrefl : ∀ l : List Nat, tupleGt l l = false := by
  intro l
  induction l with
  | nil => rfl
  | cons x xs ih => simp [tupleGt, ih]

lemma tupleGt_trans : ∀ (a b c : List Nat), tupleGt a b = true → tupleGt b c = true →
    tupleGt a c = true := by
  intro a
  induction a with
  | nil =>
    intro b c hab
    simp [tupleGt] at hab
  | cons x xs ih =>
    intro b c hab hbc
    cases b with
    | nil => simp [tupleGt] at hbc
    | cons y ys =>
      cases c with
      | nil => simp [tupleGt]
      | cons z zs =>
        simp only [tupleGt] at hab hbc ⊢
        split_ifs at hab hbc ⊢ with h1 h2 h3 h4 h5 h6 <;>
          first
          | rfl
          | omega
          | exact ih ys zs hab hbc

lemma evalGt_trans (a b c : Nat × List Nat) (hab : evalGt a b = true)
    (hbc : evalGt b c = true) : evalGt a c = true := by
  unfold evalGt at hab hbc ⊢
  simp only [Bool.or_eq_true, Bool.and_eq_true, decide_eq_true_eq] at hab hbc ⊢
  rcases hab with h1 | ⟨h1, h2⟩ <;> rcases hbc with h3 | ⟨h3, h4⟩
  · exact Or.inl (by omega)
  · exact Or.inl (by omega)
  · exact Or.inl (by omega)
  · exact Or.inr ⟨by omega, tupleGt_trans _ _ _ h2 h4⟩

lemma evalGt_irrefl (a : Nat × List Nat) : evalGt a a = false := by
  unfold evalGt
  simp [tupleGt_irrefl]

/-- Whatever `find_best_hand`'s loop keeps as `best_hand` evaluates to the
kept `(best_rank, best_tiebreaker)`. -/
lemma foldl_bestStep_track (combos : List (List Card)) :
    ∀ acc : Option (HandType × List Card) × Nat × List Nat,
      (∀ th cs, acc.1 = some (th, cs) →
        evaluate_hand cs = (th, acc.2.2) ∧ HAND_RANKS th = acc.2.1) →
      ∀ th cs, (combos.foldl bestStep acc).1 = some (th, cs) →
        evaluate_hand cs = (th, (combos.foldl bestStep acc).2.2) ∧
          HAND_RANKS th = (combos.foldl bestStep acc).2.1 := by
  induction combos with
  | nil =>
    intro acc hacc
    simpa using hacc
  | cons c rest ih =>
    intro acc hacc
    simp only [List.foldl_cons]
    refine ih (bestStep acc c) ?_
    intro th cs h
    unfold bestStep at h ⊢
    dsimp only at h ⊢
    split_ifs at h ⊢ with hgt
    · simp only [Option.some.injEq, Prod.mk.injEq] at h
      obtain ⟨h1, h2⟩ := h
      subst h1
      subst h2
      exact ⟨rfl, rfl⟩
    · exact hacc th cs h

/-- No enumerated combination evaluates strictly greater than the final
`(best_rank, best_tiebreaker)` of `find_best_hand`'s loop. -/
lemma foldl_bestStep_no_better (combos : List (List Card)) :
    ∀ acc : Option (HandType × List Card) × Nat × List Nat,
      (∀ c ∈ combos,
        evalGt (HAND_RANKS (evaluate_hand c).1, (evaluate_hand c).2)
          ((combos.foldl bestStep acc).2.1, (combos.foldl bestStep acc).2.2) = false) ∧
      (∀ q : Nat × List Nat, evalGt q (acc.2.1, acc.2.2) = false →
        evalGt q ((combos.foldl bestStep acc).2.1,
          (combos.foldl bestStep acc).2.2) = false) := by
  induction combos with
  | nil =>
    intro acc
    exact ⟨by simp, fun q hq => hq⟩
  | cons c rest ih =>
    intro acc
    simp only [List.foldl_cons]
    have key : ∀ q : Nat × List Nat, evalGt q (acc.2.1, acc.2.2) = false →
        evalGt q ((bestStep acc c).2.1, (bestStep acc c).2.2) = false := by
      intro q hq
      unfold bestStep
      dsimp only
      split_ifs with hgt
      · by_contra hq2
        rw [Bool.not_eq_false] at hq2
        rw [evalGt_trans q _ _ hq2 hgt] at hq
        exact Bool.noConfusion hq
      · exact hq
    refine ⟨?_, fun q hq => (ih (bestStep acc c)).2 q (key q hq)⟩
    intro d hd
    rcases List.mem_cons.mp hd with heq | hd2
    · subst heq
      refine (ih (bestStep acc d)).2 _ ?_
      unfold bestStep
      dsimp only
      split_ifs with hgt
      · exact evalGt_irrefl _
      · exact Bool.eq_false_iff.mpr hgt
    · exact (ih (bestStep acc c)).1 d hd2

/-- C6: `find_best_hand` is optimal — whenever it returns a hand, no
enumerated 5-card subset of the 2+5 input cards evaluates
lexicographically strictly greater (category rank first, then Python
tuple comparison of tiebreakers) than the returned hand. -/
theorem find_best_hand_optimal (hole community : List Card) (th : HandType)
    (cs : List Card) (h2 : hole.length = 2) (h5 : community.length = 5)
    (h : find_best_hand hole community = some (th, cs)) :
    (combinations 5 (hole ++ community)).all (fun c =>
      !evalGt (HAND_RANKS (evaluate_hand c).1, (evaluate_hand c).2)
        (HAND_RANKS (evaluate_hand cs).1, (evaluate_hand cs).2)) = true := by
  unfold find_best_hand at h
  have htr := foldl_bestStep_track (combinations 5 (hole ++ community))
    (none, 0, []) (by simp) th cs h
  have hnb := (foldl_bestStep_no_better (combinations 5 (hole ++ community))
    (none, 0, [])).1
  rw [List.all_eq_true]
  intro c hc
  rw [Bool.not_eq_true']
  obtain ⟨he, hr⟩ := htr
  have hpair : (HAND_RANKS (evaluate_hand cs).1, (evaluate_hand cs).2)
      = (((combinations 5 (hole ++ community)).foldl bestStep (none, 0, [])).2.1,
         ((combinations 5 (hole ++ community)).foldl bestStep (none, 0, [])).2.2) := by
    rw [he]
    exact congrArg (fun z => (z, _)) hr
  rw [hpair]
  exact hnb c hc

/-- Royal-flush hole cards A♠ K♠. -/
def c6Hole : List Card := [mkCard 3 12, mkCard 3 11]

/-- Community Q♠ J♠ 10♠ 2♥ 7♦. -/
def c6Comm : List Card :=
  [mkCard 3 10, mkCard 3 9, mkCard 3 8, mkCard 0 0, mkCard 1 5]

set_option maxRecDepth 40000 in
/-- Witness for C6: with A♠ K♠ and board Q♠ J♠ 10♠ 2♥ 7♦ the loop returns
the royal flush and no 5-card subset beats it. -/
theorem find_best_hand_optimal_witness :
    c6Hole.length = 2 ∧ c6Comm.length = 5 ∧
    find_best_hand c6Hole c6Comm = some (HandType.royalFlush,
      [mkCard 3 12, mkCard 3 11, mkCard 3 10, mkCard 3 9, mkCard 3 8]) ∧
    (combinations 5 (c6Hole ++ c6Comm)).all (fun c =>
      !evalGt (HAND_RANKS (evaluate_hand c).1, (evaluate_hand c).2)
        (HAND_RANKS (evaluate_hand
            [mkCard 3 12, mkCard 3 11, mkCard 3 10, mkCard 3 9, mkCard 3 8]).1,
          (evaluate_hand
            [mkCard 3 12, mkCard 3 11, mkCard 3 10, mkCard 3 9, mkCard 3 8]).2))
      = true := by
  refine ⟨rfl, rfl, by decide, ?_⟩
  exact find_best_hand_optimal c6Hole c6Comm HandType.royalFlush
    [mkCard 3 12, mkCard 3 11, mkCard 3 10, mkCard 3 9, mkCard 3 8]
    rfl rfl (by decide)

/-! ## C4 — betting-round termination condition -/

lemma activeWithChips_length_le (players : List Player) :
    (activeWithChips players).length ≤ (unfoldedPlayers players).length := by
  induction players with
  | nil => simp [activeWithChips, unfoldedPlayers]
  | cons p ps ih =>
    simp only [activeWithChips, unfoldedPlayers, List.filter_cons] at ih ⊢
    by_cases hf : p.is_folded <;> by_cases hs : (0 : Int) < p.stack <;>
      simp [hf, hs] <;> omega

/-- Every normal exit of the betting loop is through one of the three
completion checks. -/
lemma bettingLoop_exit (pol : BetState → PlayerAction) :
    ∀ (fuel : Nat) (s s' : BetState), bettingLoop pol fuel s = some s' →
      (activeWithChips s'.players).length ≤ 1 ∨
        (unfoldedPlayers s'.players).length ≤ 1 ∨
        (allActed s' = true ∧ allMatched s' = true) := by
  intro fuel
  induction fuel with
  | zero =>
    intro s s' h
    simp [bettingLoop] at h
  | succ n ih =>
    intro s s' h
    unfold bettingLoop at h
    cases hg : s.players[s.idx]? with
    | none =>
      rw [hg] at h
      simp at h
    | some p =>
      rw [hg] at h
      dsimp only at h
      split_ifs at h with hskip hc1 hc2 hc3 hc4 hc5 hc6 hc7 <;>
        first
        | exact ih _ _ h
        | (rw [Option.some.injEq] at h
           subst h
           first
           | exact Or.inl (by assumption)
           | exact Or.inr (Or.inl (by assumption))
           | exact Or.inr (Or.inr ⟨by simp_all only [Bool.and_eq_true],
               by simp_all only [Bool.and_eq_true]⟩))

/-- Two live players: player 0 with a 60 stack, player 1 with 200. -/
def c4Players : List Player := [mkPlayer 0 60 0 false, mkPlayer 1 200 0 false]

/-- A (human-style) opening shove: raise by 60 whenever asked. -/
def c4Policy : BetState → PlayerAction := fun _ => PlayerAction.raise 60

/-- C4 counterexample: post-flop with button 1, player 0 acts first and
raises its whole 60-chip stack; the loop then stops because only one
non-folded player with chips remains, although two non-folded players
remain, player 1 has not acted since the raise and its street bet (0)
differs from the current bet (60) — the street ends in a state the claim
excludes. -/
theorem betting_round_ends_on_all_in :
    1 < (activeWithChips c4Players).length ∧
    Option.map
        (fun s' => decide ((unfoldedPlayers s'.players).length ≤ 1)
          || (allActed s' && allMatched s'))
        (betting_round c4Policy 5 false 1 c4Players 0 0)
      = some false := by
  decide

/-- C4 (amended): whenever `betting_round` returns for a street it
actually ran (at least two non-folded players with chips at entry), the
final state has at most one non-folded player with a positive stack
remaining (in particular whenever at most one non-folded player remains),
or every non-folded player has acted since the last raise and every
non-folded player's `total_bet_this_round` equals `current_bet`. -/
theorem betting_round_exit_condition (pol : BetState → PlayerAction) (fuel : Nat)
    (preflop : Bool) (button : Nat) (players : List Player)
    (pot current_bet : Int) (s' : BetState)
    (hrun : 1 < (activeWithChips players).length)
    (h : betting_round pol fuel preflop button players pot current_bet = some s') :
    (activeWithChips s'.players).length ≤ 1 ∨
      (allActed s' = true ∧ allMatched s' = true) := by
  unfold betting_round at h
  rw [if_neg (by omega)] at h
  rcases bettingLoop_exit pol fuel _ s' h with h1 | h1 | h1
  · exact Or.inl h1
  · exact Or.inl (le_trans (activeWithChips_length_le s'.players) h1)
  · exact Or.inr h1

/-- Two live players with 100 chips each. -/
def c4wPlayers : List Player := [mkPlayer 0 100 0 false, mkPlayer 1 100 0 false]

/-- Both players check. -/
def c4wPolicy : BetState → PlayerAction := fun _ => PlayerAction.check

/-- The state in which the check-check street ends. -/
def c4wFinal : BetState :=
  { players := c4wPlayers, pot := 0, current_bet := 0, acted := [0, 1], idx := 1 }

/-- Witness for C4: the check-check street ends with everyone acted and
matched. -/
theorem betting_round_exit_condition_witness :
    1 < (activeWithChips c4wPlayers).length ∧
    ((activeWithChips c4wFinal.players).length ≤ 1 ∨
      (allActed c4wFinal = true ∧ allMatched c4wFinal = true)) :=
  ⟨by decide,
    betting_round_exit_condition c4wPolicy 5 false 1 c4wPlayers 0 0 c4wFinal
      (by decide) (by decide)⟩

/-! ## C7 — Royal Flush characterisation -/

/-- The `is_flush` test of `evaluate_hand`, as a standalone predicate. -/
def isFlush (cards : List Card) : Bool :=
  (cards.map (fun c => c.suit)).dedup.length == 1

/-- The `is_straight` test of `evaluate_hand` (five distinct ranks
spanning exactly four index positions), as a standalone predicate. -/
def isStraight (cards : List Card) : Bool :=
  ((rankList cards).insertionSort (· ≤ ·) |>.getLast?.getD 0)
      - ((rankList cards).insertionSort (· ≤ ·) |>.head?.getD 0) == 4
    && ((rankList cards).dedup.length == 5)

/-- The wheel test of `evaluate_hand`, as a standalone predicate. -/
def isWheel (cards : List Card) : Bool :=
  (rankList cards).insertionSort (· ≤ ·) == [0, 1, 2, 3, 12]

lemma sorted_head_le {l : List Nat} (hs : l.Sorted (· ≤ ·)) {x : Nat} (hx : x ∈ l) :
    l.head?.getD 0 ≤ x := by
  cases l with
  | nil => cases hx
  | cons a t =>
    rcases List.mem_cons.mp hx with rfl | hmem
    · exact le_refl x
    · exact (List.sorted_cons.mp hs).1 x hmem

lemma sorted_le_last : ∀ {l : List Nat}, l.Sorted (· ≤ ·) → ∀ {x : Nat}, x ∈ l →
    x ≤ l.getLast?.getD 0 := by
  intro l
  induction l with
  | nil =>
    intro _ x hx
    cases hx
  | cons a t ih =>
    intro hs x hx
    obtain ⟨ha, ht⟩ := List.sorted_cons.mp hs
    cases t with
    | nil =>
      rcases List.mem_cons.mp hx with rfl | hmem
      · exact le_refl x
      · cases hmem
    | cons b t' =>
      rw [List.getLast?_cons_cons]
      rcases List.mem_cons.mp hx with rfl | hmem
      · exact le_trans (ha b (List.mem_cons_self _ _)) (ih ht (List.mem_cons_self _ _))
      · exact ih ht hmem

lemma getLast_getD_mem {l : List Nat} (h : l ≠ []) : l.getLast?.getD 0 ∈ l := by
  rw [List.getLast?_eq_getLast l h]
  exact List.getLast_mem h

/-- A straight that contains the Ace is ten-to-ace: its rank multiset is
exactly {8,9,10,11,12}, so it contains both the Ten (index 8) and the
Jack (index 9). -/
lemma straight_with_ace_ranks (cards : List Card) (h5 : cards.length = 5)
    (hs : isStraight cards = true) (h12 : 12 ∈ rankList cards) :
    8 ∈ rankList cards ∧ 9 ∈ rankList cards := by
  have hlen : (rankList cards).length = 5 := by simp [rankList, h5]
  unfold isStraight at hs
  rw [Bool.and_eq_true, beq_iff_eq, beq_iff_eq] at hs
  obtain ⟨hspan, hdedup⟩ := hs
  have hnd : (rankList cards).Nodup := by
    have hsub := List.dedup_sublist (rankList cards)
    have heq := hsub.eq_of_length (by rw [hdedup, hlen])
    exact List.dedup_eq_self.mp heq
  have hperm : ((rankList cards).insertionSort (· ≤ ·)).Perm (rankList cards) :=
    List.perm_insertionSort _ _
  have hsort : ((rankList cards).insertionSort (· ≤ ·)).Sorted (· ≤ ·) :=
    List.sorted_insertionSort _ _
  have hub : ∀ x ∈ rankList cards, x ≤ 12 := by
    intro x hx
    simp only [rankList, List.mem_map] at hx
    obtain ⟨c, -, rfl⟩ := hx
    exact Nat.lt_succ_iff.mp c.rank.isLt
  have hne : (rankList cards).insertionSort (· ≤ ·) ≠ [] := by
    intro hnil
    have := hperm.length_eq
    rw [hnil, hlen] at this
    simp at this
  have hlast : ((rankList cards).insertionSort (· ≤ ·)).getLast?.getD 0 = 12 := by
    have hge : 12 ≤ ((rankList cards).insertionSort (· ≤ ·)).getLast?.getD 0 :=
      sorted_le_last hsort (hperm.mem_iff.mpr h12)
    have hle := hub _ (hperm.mem_iff.mp (getLast_getD_mem hne))
    omega
  have hhead : ((rankList cards).insertionSort (· ≤ ·)).head?.getD 0 = 8 := by
    rw [hlast] at hspan
    have hhm := sorted_head_le hsort (hperm.mem_iff.mpr h12)
    omega
  have hlb : ∀ x ∈ rankList cards, 8 ≤ x := by
    intro x hx
    have := sorted_head_le hsort (hperm.mem_iff.mpr hx)
    omega
  have hsubF : (rankList cards).toFinset ⊆ Finset.Icc 8 12 := by
    intro x hx
    rw [List.mem_toFinset] at hx
    rw [Finset.mem_Icc]
    exact ⟨hlb x hx, hub x hx⟩
  have hEq : (rankList cards).toFinset = Finset.Icc 8 12 := by
    refine Finset.eq_of_subset_of_card_le hsubF ?_
    rw [List.toFinset_card_of_nodup hnd, hlen, Nat.card_Icc]
  constructor
  · rw [← List.mem_toFinset, hEq]
    decide
  · rw [← List.mem_toFinset, hEq]
    decide

/-- The wheel contains neither the Ten (index 8) nor the Jack (index 9). -/
lemma wheel_ranks (cards : List Card) (hw : isWheel cards = true) :
    ¬ 8 ∈ rankList cards ∧ ¬ 9 ∈ rankList cards := by
  unfold isWheel at hw
  rw [beq_iff_eq] at hw
  have hperm := List.perm_insertionSort (α := Nat) (· ≤ ·) (rankList cards)
  rw [hw] at hperm
  constructor <;> intro hx <;> have hmem := hperm.mem_iff.mpr hx <;> simp at hmem

/-- The Royal Flush branch of `evaluate_hand` fires exactly on its guard:
straight-or-wheel, flush, and ranks containing the Ace (12) and, as the
source literally tests, index 9 — the Jack. -/
lemma evaluate_hand_royal_iff (cards : List Card) :
    (evaluate_hand cards).1 = HandType.royalFlush ↔
      (((isStraight cards || isWheel cards) && isFlush cards)
        && ((rankList cards).contains 12 && (rankList cards).contains 9)) = true := by
  unfold evaluate_hand isStraight isWheel isFlush
  dsimp only
  split_ifs with h h1 h2 h3 h4 h5 h6 h7 h8
  · exact iff_of_true rfl h
  all_goals exact iff_of_false (by simp) h

/-- C7: on every 5-card hand, `evaluate_hand` returns Royal Flush exactly
when the hand is a straight flush (a straight or the wheel, all one suit)
whose ranks include both the Ace and the Ten.  (The source tests for the
Jack rather than the Ten, but on straights containing the Ace the two
tests agree, and the wheel contains neither.) -/
theorem royal_flush_iff (cards : List Card) (h5 : cards.length = 5) :
    (evaluate_hand cards).1 = HandType.royalFlush ↔
      ((isStraight cards = true ∨ isWheel cards = true) ∧ isFlush cards = true ∧
        12 ∈ rankList cards ∧ 8 ∈ rankList cards) := by
  rw [evaluate_hand_royal_iff]
  simp only [Bool.and_eq_true, Bool.or_eq_true, List.elem_iff]
  constructor
  · rintro ⟨⟨hsw, hf⟩, h12, h9⟩
    refine ⟨hsw, hf, h12, ?_⟩
    rcases hsw with hst | hwh
    · exact (straight_with_ace_ranks cards h5 hst h12).1
    · exact absurd h9 (wheel_ranks cards hwh).2
  · rintro ⟨hsw, hf, h12, h8⟩
    refine ⟨⟨hsw, hf⟩, h12, ?_⟩
    rcases hsw with hst | hwh
    · exact (straight_with_ace_ranks cards h5 hst h12).2
    · exact absurd h8 (wheel_ranks cards hwh).1

/-- The royal flush in spades. -/
def royalHand : List Card :=
  [mkCard 3 12, mkCard 3 11, mkCard 3 10, mkCard 3 9, mkCard 3 8]

set_option maxRecDepth 4000 in
/-- Witness for C7: the spade royal flush satisfies both sides; the wheel
straight flush in hearts falsifies both sides. -/
theorem royal_flush_iff_witness :
    royalHand.length = 5 ∧
    ((evaluate_hand royalHand).1 = HandType.royalFlush ↔
      ((isStraight royalHand = true ∨ isWheel royalHand = true) ∧
        isFlush royalHand = true ∧
        12 ∈ rankList royalHand ∧ 8 ∈ rankList royalHand)) ∧
    (evaluate_hand royalHand).1 = HandType.royalFlush :=
  ⟨rfl, royal_flush_iff royalHand rfl, by decide⟩
